import Mathlib

/-!
Verification of the google-analytics-mcp repository: the property-reference
normalizer described in the specification (its implementation in
analytics_mcp/tools/utils.py is exercised by tests/utils_test.py) and the
resource-name construction performed by the reporting tools in
analytics_mcp/tools/reporting/core.py.

Strings are modelled through their character lists; trimming and splitting
are modelled by explicit recursive functions mirroring Python str.strip and
str.split.
-/

namespace AnalyticsMcp

/-- A raw property reference as supplied by a caller of the normalizer:
Python None, an integer, or a string. -/
inductive PropertyInput where
  | null : PropertyInput
  | int : Int → PropertyInput
  | str : String → PropertyInput
deriving DecidableEq

/-- Python str() of a raw input, as performed by f-string interpolation:
None renders as the text None, an integer as its decimal representation. -/
def pyStr : PropertyInput → String
  | .null => "None"
  | .int n => toString n
  | .str s => s

/-- The single error kind of the normalizer, carrying a human-readable
reason. Models the ValueError raised by construct_property_rn. -/
inductive NormError where
  | invalidReference : String → NormError
deriving DecidableEq

/-- Removes leading and trailing whitespace characters, modelling Python
str.strip applied to the character list of a string. -/
def trimChars (l : List Char) : List Char :=
  ((l.dropWhile Char.isWhitespace).reverse.dropWhile Char.isWhitespace).reverse

/-- Whether a character list contains the slash separator. -/
def hasSlash : List Char → Bool
  | [] => false
  | c :: cs => c = '/' || hasSlash cs

/-- Splits a character list on the slash separator, modelling Python
str.split applied with a slash argument: the result always has one more
component than there are slashes, and components may be empty. -/
def splitSlash : List Char → List (List Char)
  | [] => [[]]
  | c :: cs =>
    if c = '/' then [] :: splitSlash cs
    else
      match splitSlash cs with
      | [] => [[c]]
      | p :: ps => (c :: p) :: ps

/-- Modelled from the spec: steps 3 and 4 of the normalization algorithm of
section 4.1, applied to an already trimmed character list. The
implementation construct_property_rn in analytics_mcp/tools/utils.py is not
among the sources; only its unit tests are. An empty value fails; a value
without a slash must be all decimal digits and is wrapped behind the
canonical literal; a value with a slash must split into exactly two
components, the first the literal word properties, the second non-empty and
all decimal digits, and is returned unchanged. -/
def normalizeChars (t : List Char) : Except NormError String :=
  if t.isEmpty then
    .error (.invalidReference "property reference is missing or empty")
  else if hasSlash t then
    match splitSlash t with
    | [p, d] =>
      if p = "properties".data then
        if !d.isEmpty && d.all Char.isDigit then .ok (String.mk t)
        else .error (.invalidReference "the id component must be non-empty decimal digits")
      else .error (.invalidReference "the first component must be the literal word properties")
    | _ => .error (.invalidReference "the qualified form must have exactly two components")
  else if t.all Char.isDigit then .ok (String.mk ("properties/".data ++ t))
  else .error (.invalidReference "a bare property id must be all decimal digits")

/-- Modelled from the spec: steps 1 and 2 of the normalization algorithm,
trimming surrounding whitespace before validating. -/
def normalizeString (s : String) : Except NormError String :=
  normalizeChars (trimChars s.data)

/-- Modelled from the spec: the full normalizer construct_property_rn.
A null input fails; an integer is converted to its decimal string first;
a string is trimmed and validated. -/
def construct_property_rn : PropertyInput → Except NormError String
  | .null => .error (.invalidReference "a property reference is required")
  | .int n => normalizeString (toString n)
  | .str s => normalizeString s

/-- Whether a slashed value violates the qualified-form rules: wrong
component count, first component not the literal word properties, or a
second component that is empty or not all digits. -/
def violatesQualified (t : List Char) : Bool :=
  match splitSlash t with
  | [p, d] => !(p = "properties".data) || d.isEmpty || !(d.all Char.isDigit)
  | _ => true

/-- The failure condition on a trimmed character list: empty, a slash-free
value not all decimal digits, or a slashed value violating the
qualified-form rules. -/
def isBadChars (t : List Char) : Bool :=
  t.isEmpty || (if hasSlash t then violatesQualified t else !(t.all Char.isDigit))

/-- The failure condition of the normalizer over raw inputs: null, or a
value whose string conversion is bad after trimming. -/
def isBadInput : PropertyInput → Bool
  | .null => true
  | .int n => isBadChars (trimChars (toString n).data)
  | .str s => isBadChars (trimChars s.data)

/-- The property field constructed by run_report in
analytics_mcp/tools/reporting/core.py: the value of the f-string that
interpolates property_id directly after the canonical literal, with no call
to the normalizer. -/
def run_report_property (property_id : String) : String :=
  "properties/" ++ property_id

/-- Checks whether the second character list begins with the first,
modelling Python str.startswith. -/
def startsWithChars : List Char → List Char → Bool
  | [], _ => true
  | _ :: _, [] => false
  | p :: ps, c :: cs => p = c && startsWithChars ps cs

/-- The last element of a component list, modelling Python list index -1 on
the non-empty result of str.split. -/
def lastComponent : List (List Char) → List Char
  | [] => []
  | [x] => x
  | _ :: xs => lastComponent xs

/-- The validation and metadata resource name construction of
get_dimensions in analytics_mcp/tools/reporting/core.py: a missing
property_id raises a ValueError; a value starting with the canonical
literal is replaced by its last slash-separated component; the result is
interpolated into the metadata resource name. -/
def get_dimensions_name : Option String → Except String String
  | none => .error "Must supply a property ID"
  | some pid =>
    .ok (String.mk ("properties/".data ++
      (if startsWithChars "properties/".data pid.data
       then lastComponent (splitSlash pid.data)
       else pid.data) ++ "/metadata".data))

/-- The metadata resource name construction of get_metrics in
analytics_mcp/tools/reporting/core.py: a single f-string interpolation with
no validation of property_id. -/
def get_metrics_name (property_id : PropertyInput) : Except String String :=
  .ok ("properties/" ++ pyStr property_id ++ "/metadata")

/-- The optional scalar request fields of run_report that are copied only
when truthy: limit, offset, currency_code. A value of none models an
omitted argument on the caller side and an unset field on the request
side. -/
structure OptionalReportFields where
  limit : Option Int
  offset : Option Int
  currency_code : Option String
deriving DecidableEq

/-- Python truthiness of the optional integer arguments of run_report:
None and 0 are falsy. -/
def truthyInt : Option Int → Bool
  | none => false
  | some n => n ≠ 0

/-- Python truthiness of the optional string argument of run_report:
None and the empty string are falsy. -/
def truthyStr : Option String → Bool
  | none => false
  | some s => s ≠ ""

/-- The three guarded assignments at the end of run_report in core.py: each
field starts unset and is copied into the request only when the argument
is truthy. -/
def run_report_optional_fields (limit offset : Option Int)
    (currency_code : Option String) : OptionalReportFields :=
  let r0 : OptionalReportFields := ⟨none, none, none⟩
  let r1 := if truthyInt limit then { r0 with limit := limit } else r0
  let r2 := if truthyInt offset then { r1 with offset := offset } else r1
  if truthyStr currency_code then { r2 with currency_code := currency_code } else r2

lemma ne_slash_of_isDigit {c : Char} (h : c.isDigit = true) : c ≠ '/' := by
  intro he
  subst he
  exact absurd h (by decide)

lemma not_whitespace_of_isDigit {c : Char} (h : c.isDigit = true) :
    c.isWhitespace = false := by
  cases hw : c.isWhitespace
  · rfl
  · exfalso
    have h4 : ((c = ' ' ∨ c = '\t') ∨ c = '\x0d') ∨ c = '\n' := by
      simpa [Char.isWhitespace] using hw
    rcases h4 with ((h1 | h1) | h1) | h1 <;> subst h1 <;> exact absurd h (by decide)

lemma hasSlash_eq_false_of_digits {l : List Char} (h : l.all Char.isDigit = true) :
    hasSlash l = false := by
  induction l with
  | nil => rfl
  | cons c cs ih =>
    rw [List.all_cons, Bool.and_eq_true] at h
    have hc : c ≠ '/' := ne_slash_of_isDigit h.1
    simp [hasSlash, hc, ih h.2]

lemma dropWhile_eq_self_of {p : Char → Bool} {l : List Char}
    (h : ∀ c ∈ l, p c = false) : l.dropWhile p = l := by
  cases l with
  | nil => rfl
  | cons c cs =>
    rw [List.dropWhile_cons]
    simp [h c (List.mem_cons_self c cs)]

lemma trimChars_eq_self {l : List Char} (h : ∀ c ∈ l, c.isWhitespace = false) :
    trimChars l = l := by
  unfold trimChars
  rw [dropWhile_eq_self_of h]
  rw [dropWhile_eq_self_of (fun c hc => h c (List.mem_reverse.mp hc))]
  exact List.reverse_reverse l

lemma splitSlash_ne_nil (l : List Char) : splitSlash l ≠ [] := by
  induction l with
  | nil => simp [splitSlash]
  | cons c cs ih =>
    by_cases hc : c = '/'
    · simp [splitSlash, hc]
    · rcases hr : splitSlash cs with _ | ⟨p, ps⟩
      · exact absurd hr ih
      · simp [splitSlash, hc, hr]

lemma splitSlash_cons_slash (cs : List Char) :
    splitSlash ('/' :: cs) = [] :: splitSlash cs := by
  simp [splitSlash]

lemma splitSlash_cons_of (c : Char) (cs p : List Char) (ps : List (List Char))
    (hc : c ≠ '/') (hr : splitSlash cs = p :: ps) :
    splitSlash (c :: cs) = (c :: p) :: ps := by
  simp [splitSlash, hc, hr]

lemma splitSlash_no_slash {l : List Char} (h : hasSlash l = false) :
    splitSlash l = [l] := by
  induction l with
  | nil => rfl
  | cons c cs ih =>
    simp only [hasSlash, Bool.or_eq_false_iff] at h
    have hc : c ≠ '/' := by simpa using h.1
    exact splitSlash_cons_of c cs cs [] hc (ih h.2)

lemma splitSlash_append {a : List Char} (b : List Char) (h : hasSlash a = false) :
    splitSlash (a ++ '/' :: b) = a :: splitSlash b := by
  induction a with
  | nil => simp [splitSlash]
  | cons c cs ih =>
    simp only [hasSlash, Bool.or_eq_false_iff] at h
    have hc : c ≠ '/' := by simpa using h.1
    rw [List.cons_append]
    exact splitSlash_cons_of c _ cs (splitSlash b) hc (ih h.2)

lemma splitSlash_eq_single {l q : List Char} (h : splitSlash l = [q]) : l = q := by
  induction l generalizing q with
  | nil =>
    have h0 : ([[]] : List (List Char)) = [q] := h
    exact (List.cons_eq_cons.mp h0).1
  | cons c cs ih =>
    by_cases hc : c = '/'
    · subst hc
      rw [splitSlash_cons_slash] at h
      obtain ⟨h1, h2⟩ := List.cons_eq_cons.mp h
      exact absurd h2 (splitSlash_ne_nil cs)
    · rcases hr : splitSlash cs with _ | ⟨p, ps⟩
      · exact absurd hr (splitSlash_ne_nil cs)
      · rw [splitSlash_cons_of c cs p ps hc hr] at h
        obtain ⟨h1, h2⟩ := List.cons_eq_cons.mp h
        subst h2
        have hcs : cs = p := ih hr
        rw [← h1, hcs]

lemma splitSlash_eq_pair {l p q : List Char} (h : splitSlash l = [p, q]) :
    l = p ++ '/' :: q := by
  induction l generalizing p with
  | nil =>
    have h0 : ([[]] : List (List Char)) = [p, q] := h
    have h2 := (List.cons_eq_cons.mp h0).2
    exact absurd h2.symm (by simp)
  | cons c cs ih =>
    by_cases hc : c = '/'
    · subst hc
      rw [splitSlash_cons_slash] at h
      obtain ⟨h1, h2⟩ := List.cons_eq_cons.mp h
      have hcs : cs = q := splitSlash_eq_single h2
      rw [← h1, hcs, List.nil_append]
    · rcases hr : splitSlash cs with _ | ⟨p0, ps⟩
      · exact absurd hr (splitSlash_ne_nil cs)
      · rw [splitSlash_cons_of c cs p0 ps hc hr] at h
        obtain ⟨h1, h2⟩ := List.cons_eq_cons.mp h
        have hcs : cs = p0 ++ '/' :: q := ih (by rw [hr, h2])
        rw [← h1, hcs, List.cons_append]

lemma digitChar_isDigit {x : Nat} (h : x < 10) : (Nat.digitChar x).isDigit = true := by
  interval_cases x <;> decide

lemma toDigitsCore_digits (fuel : Nat) :
    ∀ (n : Nat) (ds : List Char), (∀ c ∈ ds, c.isDigit = true) →
      ∀ c ∈ Nat.toDigitsCore 10 fuel n ds, c.isDigit = true := by
  induction fuel with
  | zero => intro n ds hds; exact hds
  | succ f ih =>
    intro n ds hds c hc
    simp only [Nat.toDigitsCore] at hc
    have hd : (Nat.digitChar (n % 10)).isDigit = true :=
      digitChar_isDigit (Nat.mod_lt n (by decide))
    have hcons : ∀ x ∈ Nat.digitChar (n % 10) :: ds, x.isDigit = true := by
      intro x hx
      rcases List.mem_cons.mp hx with h1 | h1
      · rw [h1]; exact hd
      · exact hds x h1
    by_cases h0 : n / 10 = 0
    · rw [if_pos h0] at hc
      exact hcons c hc
    · rw [if_neg h0] at hc
      exact ih (n / 10) (Nat.digitChar (n % 10) :: ds) hcons c hc

lemma toDigitsCore_eq_nil {fuel : Nat} :
    ∀ {n : Nat} {ds : List Char}, Nat.toDigitsCore 10 fuel n ds = [] → ds = [] := by
  induction fuel with
  | zero => intro n ds h; exact h
  | succ f ih =>
    intro n ds h
    simp only [Nat.toDigitsCore] at h
    by_cases h0 : n / 10 = 0
    · rw [if_pos h0] at h
      exact absurd h (by simp)
    · rw [if_neg h0] at h
      exact absurd (ih h) (by simp)

lemma toDigits_ne_nil (n : Nat) : Nat.toDigits 10 n ≠ [] := by
  intro h
  unfold Nat.toDigits at h
  simp only [Nat.toDigitsCore] at h
  by_cases h0 : n / 10 = 0
  · rw [if_pos h0] at h
    exact absurd h (by simp)
  · rw [if_neg h0] at h
    exact absurd (toDigitsCore_eq_nil h) (by simp)

lemma repr_data (n : Nat) : (Nat.repr n).data = Nat.toDigits 10 n := rfl

lemma repr_all_digits (n : Nat) : (Nat.repr n).data.all Char.isDigit = true := by
  rw [List.all_eq_true]
  intro c hc
  rw [repr_data] at hc
  unfold Nat.toDigits at hc
  exact toDigitsCore_digits (n + 1) n [] (by intro x hx; cases hx) c hc

lemma repr_ne_nil (n : Nat) : (Nat.repr n).data ≠ [] := by
  rw [repr_data]
  exact toDigits_ne_nil n

lemma hasSlash_append (a b : List Char) :
    hasSlash (a ++ b) = (hasSlash a || hasSlash b) := by
  induction a with
  | nil => simp [hasSlash]
  | cons c cs ih => simp [hasSlash, ih, Bool.or_assoc]

lemma mk_append (s : String) :
    String.mk ("properties/".data ++ s.data) = "properties/" ++ s := by
  cases s with
  | mk l => rfl

lemma normalizeChars_digits {t : List Char} (h1 : t ≠ [])
    (h2 : t.all Char.isDigit = true) :
    normalizeChars t = .ok (String.mk ("properties/".data ++ t)) := by
  have hA : ¬ (t.isEmpty = true) := by
    rw [List.isEmpty_iff]
    exact h1
  have hB : ¬ (hasSlash t = true) := by
    rw [hasSlash_eq_false_of_digits h2]
    exact Bool.false_ne_true
  unfold normalizeChars
  rw [if_neg hA, if_neg hB, if_pos h2]

lemma trim_canonical {d : List Char} (h2 : d.all Char.isDigit = true) :
    trimChars ("properties/".data ++ d) = "properties/".data ++ d := by
  apply trimChars_eq_self
  intro c hc
  rcases List.mem_append.mp hc with hm | hm
  · exact (by decide : ∀ x ∈ "properties/".data, x.isWhitespace = false) c hm
  · exact not_whitespace_of_isDigit (List.all_eq_true.mp h2 c hm)

lemma normalizeChars_qualified {d : List Char} (h1 : d ≠ [])
    (h2 : d.all Char.isDigit = true) :
    normalizeChars ("properties/".data ++ d) =
      .ok (String.mk ("properties/".data ++ d)) := by
  have hs0 : "properties/".data ++ d = "properties".data ++ '/' :: d := rfl
  have hsp : splitSlash ("properties/".data ++ d) = ["properties".data, d] := by
    rw [hs0, splitSlash_append d (by decide),
        splitSlash_no_slash (hasSlash_eq_false_of_digits h2)]
  have hA : ¬ (("properties/".data ++ d).isEmpty = true) := by
    have he : "properties/".data ++ d = 'p' :: ("roperties/".data ++ d) := rfl
    rw [he, List.isEmpty_cons]
    exact Bool.false_ne_true
  have hB : hasSlash ("properties/".data ++ d) = true := by
    rw [hasSlash_append]
    rw [(by decide : hasSlash "properties/".data = true), Bool.true_or]
  have hd : (!d.isEmpty && d.all Char.isDigit) = true := by
    rw [h2, Bool.and_true, Bool.not_eq_true', ← Bool.not_eq_true, List.isEmpty_iff]
    exact h1
  simp only [normalizeChars, hsp]
  simp [hd]
  simpa using hB

lemma normalizeChars_ok_canonical {t : List Char} {r : String}
    (h : normalizeChars t = .ok r) :
    ∃ d : List Char, d ≠ [] ∧ d.all Char.isDigit = true ∧
      r = String.mk ("properties/".data ++ d) := by
  unfold normalizeChars at h
  by_cases hA : t.isEmpty = true
  · rw [if_pos hA] at h
    exact Except.noConfusion h
  · rw [if_neg hA] at h
    by_cases hB : hasSlash t = true
    · rw [if_pos hB] at h
      rcases hsp : splitSlash t with _ | ⟨p, tl⟩
      · exact absurd hsp (splitSlash_ne_nil t)
      · rcases tl with _ | ⟨d, tl2⟩
        · simp only [hsp] at h
          exact Except.noConfusion h
        · rcases tl2 with _ | ⟨x, xs⟩
          · simp only [hsp] at h
            by_cases hp : p = "properties".data
            · rw [if_pos hp] at h
              by_cases hd : (!d.isEmpty && d.all Char.isDigit) = true
              · rw [if_pos hd] at h
                rw [Bool.and_eq_true] at hd
                obtain ⟨hne, hdig⟩ := hd
                refine ⟨d, ?_, hdig, ?_⟩
                · intro hd0
                  rw [hd0] at hne
                  exact absurd hne (by decide)
                · have ht : t = p ++ '/' :: d := splitSlash_eq_pair hsp
                  rw [← Except.ok.inj h, ht, hp]
                  rfl
              · rw [if_neg hd] at h
                exact Except.noConfusion h
            · rw [if_neg hp] at h
              exact Except.noConfusion h
          · simp only [hsp] at h
            exact Except.noConfusion h
    · rw [if_neg hB] at h
      by_cases hC : t.all Char.isDigit = true
      · rw [if_pos hC] at h
        refine ⟨t, ?_, hC, (Except.ok.inj h).symm⟩
        intro h0
        rw [h0] at hA
        exact hA rfl
      · rw [if_neg hC] at h
        exact Except.noConfusion h

lemma normalizeChars_bad {t : List Char} (h : isBadChars t = true) :
    ∃ msg, normalizeChars t = .error (.invalidReference msg) := by
  unfold isBadChars at h
  unfold normalizeChars
  by_cases hA : t.isEmpty = true
  · rw [if_pos hA]
    exact ⟨_, rfl⟩
  · rw [if_neg hA]
    rw [Bool.or_eq_true] at h
    rcases h with h | h
    · exact absurd h hA
    · by_cases hB : hasSlash t = true
      · rw [if_pos hB]
        rw [if_pos hB] at h
        unfold violatesQualified at h
        rcases hsp : splitSlash t with _ | ⟨p, tl⟩
        · exact absurd hsp (splitSlash_ne_nil t)
        · rcases tl with _ | ⟨d, tl2⟩
          · simp only [hsp]
            exact ⟨_, rfl⟩
          · rcases tl2 with _ | ⟨x, xs⟩
            · simp only [hsp] at h ⊢
              by_cases hp : p = "properties".data
              · rw [if_pos hp]
                rw [if_neg]
                · exact ⟨_, rfl⟩
                · intro hcon
                  rw [Bool.and_eq_true] at hcon
                  obtain ⟨hne, hdig⟩ := hcon
                  rw [Bool.not_eq_true'] at hne
                  simp [hp, hne, hdig] at h
              · rw [if_neg hp]
                exact ⟨_, rfl⟩
            · simp only [hsp]
              exact ⟨_, rfl⟩
      · rw [if_neg hB]
        rw [if_neg hB] at h
        rw [Bool.not_eq_true'] at h
        rw [if_neg]
        · exact ⟨_, rfl⟩
        · rw [h]
          exact Bool.false_ne_true

lemma normalizeChars_good {t : List Char} (h : isBadChars t = false) :
    ∃ r, normalizeChars t = .ok r := by
  unfold isBadChars at h
  rw [Bool.or_eq_false_iff] at h
  obtain ⟨hA, h2⟩ := h
  by_cases hB : hasSlash t = true
  · rw [if_pos hB] at h2
    unfold violatesQualified at h2
    rcases hsp : splitSlash t with _ | ⟨p, tl⟩
    · exact absurd hsp (splitSlash_ne_nil t)
    · rcases tl with _ | ⟨d, tl2⟩
      · simp only [hsp] at h2
        exact Bool.noConfusion h2
      · rcases tl2 with _ | ⟨x, xs⟩
        · simp only [hsp] at h2
          rw [Bool.or_eq_false_iff, Bool.or_eq_false_iff] at h2
          obtain ⟨⟨hp, hd1⟩, hd2⟩ := h2
          have hp2 : p = "properties".data := by
            rw [Bool.not_eq_false'] at hp
            exact of_decide_eq_true hp
          have hd3 : d.all Char.isDigit = true := by
            rwa [Bool.not_eq_false'] at hd2
          have ht : t = "properties/".data ++ d := by
            rw [splitSlash_eq_pair hsp, hp2]
            rfl
          refine ⟨String.mk ("properties/".data ++ d), ?_⟩
          rw [ht]
          refine normalizeChars_qualified ?_ hd3
          intro h0
          rw [h0] at hd1
          exact absurd hd1 (by decide)
        · simp only [hsp] at h2
          exact Bool.noConfusion h2
  · rw [if_neg hB] at h2
    rw [Bool.not_eq_false'] at h2
    refine ⟨_, normalizeChars_digits ?_ h2⟩
    intro h0
    rw [h0] at hA
    exact Bool.noConfusion hA

lemma normalizeString_error_iff (s : String) :
    (∃ msg, normalizeString s = .error (.invalidReference msg)) ↔
      isBadChars (trimChars s.data) = true := by
  constructor
  · intro h
    cases hbad : isBadChars (trimChars s.data)
    · obtain ⟨r, hr⟩ := normalizeChars_good hbad
      obtain ⟨msg, hm⟩ := h
      rw [normalizeString, hr] at hm
      exact Except.noConfusion hm
    · rfl
  · intro h
    rw [normalizeString]
    exact normalizeChars_bad h

/-- C1: the normalizer fails with the single error kind InvalidReference
exactly when its input is null, is empty after converting to string and
trimming whitespace, is a slash-free string not all decimal digits, or is a
slashed string violating the qualified-form rules; for every other input it
succeeds, and invalidReference is the only failure it ever raises. -/
theorem construct_property_rn_invalid_iff (input : PropertyInput) :
    ((∃ msg, construct_property_rn input = .error (.invalidReference msg)) ↔
      isBadInput input = true) ∧
    (isBadInput input = false → ∃ r, construct_property_rn input = .ok r) ∧
    (∀ e, construct_property_rn input = .error e →
      ∃ msg, e = .invalidReference msg) := by
  refine ⟨?_, ?_, ?_⟩
  · cases input with
    | null =>
      constructor
      · intro _
        rfl
      · intro _
        exact ⟨_, rfl⟩
    | int n => exact normalizeString_error_iff (toString n)
    | str s => exact normalizeString_error_iff s
  · cases input with
    | null =>
      intro h
      exact Bool.noConfusion h
    | int n =>
      intro h
      exact normalizeChars_good h
    | str s =>
      intro h
      exact normalizeChars_good h
  · intro e he
    cases e with
    | invalidReference m => exact ⟨m, rfl⟩

/-- Witness for the C1 theorem: the non-numeric slash-free input abc fails
and the numeric input 42 succeeds. -/
theorem construct_property_rn_invalid_iff_witness :
    (∃ msg, construct_property_rn (.str "abc") = .error (.invalidReference msg)) ∧
    (∃ r, construct_property_rn (.str "42") = .ok r) := by
  constructor
  · exact (construct_property_rn_invalid_iff (.str "abc")).1.mpr (by decide)
  · exact (construct_property_rn_invalid_iff (.str "42")).2.1 (by decide)

/-- C2: for every non-negative integer n the normalizer succeeds and maps n
to the literal followed by the decimal representation of n. -/
theorem construct_property_rn_int (n : Int) (h : 0 ≤ n) :
    construct_property_rn (.int n) = .ok ("properties/" ++ toString n) := by
  obtain ⟨m, rfl⟩ := Int.eq_ofNat_of_zero_le h
  have hts : toString (Int.ofNat m) = Nat.repr m := rfl
  show normalizeString (toString (Int.ofNat m)) = _
  rw [hts]
  unfold normalizeString
  have hdig := repr_all_digits m
  have hne := repr_ne_nil m
  have htrim : trimChars (Nat.repr m).data = (Nat.repr m).data :=
    trimChars_eq_self
      (fun c hc => not_whitespace_of_isDigit (List.all_eq_true.mp hdig c hc))
  rw [htrim, normalizeChars_digits hne hdig, mk_append]
  rfl

/-- Witness for the C2 theorem at the concrete integer of the test suite. -/
theorem construct_property_rn_int_witness :
    (0 : Int) ≤ 12345 ∧
      construct_property_rn (.int 12345) = .ok ("properties/" ++ toString (12345 : Int)) :=
  ⟨by decide, construct_property_rn_int 12345 (by decide)⟩

/-- C3: every string whose trimmed content is a non-empty digit sequence is
mapped to the literal followed by the trimmed digit sequence. -/
theorem construct_property_rn_numeric_str (s : String)
    (h1 : trimChars s.data ≠ [])
    (h2 : (trimChars s.data).all Char.isDigit = true) :
    construct_property_rn (.str s) =
      .ok (String.mk ("properties/".data ++ trimChars s.data)) := by
  show normalizeString s = _
  unfold normalizeString
  exact normalizeChars_digits h1 h2

/-- Witness for the C3 theorem at the whitespace-padded numeric string of
the test suite. -/
theorem construct_property_rn_numeric_str_witness :
    trimChars " 12345  ".data ≠ [] ∧
    (trimChars " 12345  ".data).all Char.isDigit = true ∧
    construct_property_rn (.str " 12345  ") =
      .ok (String.mk ("properties/".data ++ trimChars " 12345  ".data)) :=
  ⟨by decide, by decide,
    construct_property_rn_numeric_str " 12345  " (by decide) (by decide)⟩

/-- C4: for every input whose trimmed value contains a slash, the normalizer
succeeds exactly when splitting on the slash gives two components, the
first the literal word properties and the second a non-empty all-digit
string, and then it returns the trimmed input unchanged; the canonical form
passes unchanged while the malformed qualified examples all fail. -/
theorem construct_property_rn_qualified (s : String)
    (h : hasSlash (trimChars s.data) = true) :
    ((construct_property_rn (.str s)).toOption =
      (match splitSlash (trimChars s.data) with
       | [p, d] =>
         if p = "properties".data ∧ d ≠ [] ∧ d.all Char.isDigit = true
         then some (String.mk (trimChars s.data)) else none
       | _ => none)) ∧
    construct_property_rn (.str "properties/12345") = .ok "properties/12345" ∧
    (construct_property_rn (.str "properties/")).toOption = none ∧
    (construct_property_rn (.str "properties/abc")).toOption = none ∧
    (construct_property_rn (.str "properties/123/abc")).toOption = none := by
  refine ⟨?_, rfl, rfl, rfl, rfl⟩
  show (normalizeChars (trimChars s.data)).toOption = _
  have hA : ¬ ((trimChars s.data).isEmpty = true) := by
    intro h0
    rw [List.isEmpty_iff] at h0
    rw [h0] at h
    exact Bool.noConfusion h
  unfold normalizeChars
  rw [if_neg hA, if_pos h]
  rcases hsp : splitSlash (trimChars s.data) with _ | ⟨p, tl⟩
  · exact absurd hsp (splitSlash_ne_nil _)
  · rcases tl with _ | ⟨d, tl2⟩
    · simp only [hsp]
      rfl
    · rcases tl2 with _ | ⟨x, xs⟩
      · simp only [hsp]
        by_cases hp : p = "properties".data
        · by_cases hd : (!d.isEmpty && d.all Char.isDigit) = true
          · rw [if_pos hp, if_pos hd]
            rw [Bool.and_eq_true] at hd
            obtain ⟨hd1, hd2⟩ := hd
            rw [Bool.not_eq_true'] at hd1
            have hdne : d ≠ [] := by
              intro h0
              rw [h0] at hd1
              exact absurd hd1 (by decide)
            rw [if_pos ⟨hp, hdne, hd2⟩]
            rfl
          · rw [if_pos hp, if_neg hd, if_neg]
            · rfl
            · intro hcon
              obtain ⟨hcp, hcd1, hcd2⟩ := hcon
              apply hd
              rw [hcd2, Bool.and_true, Bool.not_eq_true']
              cases hde : d.isEmpty
              · rfl
              · rw [List.isEmpty_iff] at hde
                exact absurd hde hcd1
        · rw [if_neg hp, if_neg]
          · rfl
          · intro hcon
            exact hp hcon.1
      · simp only [hsp]
        rfl

/-- Witness for the C4 theorem at an input with a slash. -/
theorem construct_property_rn_qualified_witness :
    hasSlash (trimChars "properties/77".data) = true ∧
    (construct_property_rn (.str "properties/77")).toOption = some "properties/77" := by
  refine ⟨by decide, ?_⟩
  have hq := (construct_property_rn_qualified "properties/77" (by decide)).1
  rw [hq]
  decide

/-- C5: the normalizer accepts the canonical form built from any non-empty
digit string and is idempotent on it: re-normalizing its own output returns
the same value. -/
theorem construct_property_rn_idempotent (d : List Char)
    (h1 : d ≠ []) (h2 : d.all Char.isDigit = true) :
    ∃ r, construct_property_rn (.str ("properties/" ++ String.mk d)) = .ok r ∧
         construct_property_rn (.str r) = .ok r := by
  refine ⟨String.mk ("properties/".data ++ d), ?_, ?_⟩
  · show normalizeChars (trimChars ("properties/" ++ String.mk d).data) = _
    have hdata : ("properties/" ++ String.mk d).data = "properties/".data ++ d := rfl
    rw [hdata, trim_canonical h2]
    exact normalizeChars_qualified h1 h2
  · show normalizeChars (trimChars (String.mk ("properties/".data ++ d)).data) = _
    have hdata2 : (String.mk ("properties/".data ++ d)).data = "properties/".data ++ d := rfl
    rw [hdata2, trim_canonical h2]
    exact normalizeChars_qualified h1 h2

/-- Witness for the C5 theorem at the digit string 42. -/
theorem construct_property_rn_idempotent_witness :
    (['4', '2'] : List Char) ≠ [] ∧
    (['4', '2'] : List Char).all Char.isDigit = true ∧
    ∃ r, construct_property_rn (.str ("properties/" ++ String.mk ['4', '2'])) = .ok r ∧
         construct_property_rn (.str r) = .ok r :=
  ⟨by decide, by decide,
    construct_property_rn_idempotent ['4', '2'] (by decide) (by decide)⟩

/-- C6: every value the normalizer successfully returns is canonical: the
literal followed by a non-empty all-digit sequence, with no whitespace
anywhere in the result. -/
theorem construct_property_rn_canonical (input : PropertyInput) (r : String)
    (h : construct_property_rn input = .ok r) :
    ∃ d : List Char, d ≠ [] ∧ d.all Char.isDigit = true ∧
      r = String.mk ("properties/".data ++ d) ∧
      r.data.all (fun c => !c.isWhitespace) = true := by
  have hok : ∃ t, normalizeChars t = .ok r := by
    cases input with
    | null => exact Except.noConfusion h
    | int n => exact ⟨trimChars (toString n).data, h⟩
    | str s => exact ⟨trimChars s.data, h⟩
  obtain ⟨t, ht⟩ := hok
  obtain ⟨d, hd1, hd2, hd3⟩ := normalizeChars_ok_canonical ht
  refine ⟨d, hd1, hd2, hd3, ?_⟩
  rw [hd3]
  rw [List.all_eq_true]
  intro c hc
  rcases List.mem_append.mp hc with hm | hm
  · exact (by decide : ∀ x ∈ "properties/".data, (!x.isWhitespace) = true) c hm
  · rw [not_whitespace_of_isDigit (List.all_eq_true.mp hd2 c hm)]
    rfl

/-- Witness for the C6 theorem at a padded numeric input. -/
theorem construct_property_rn_canonical_witness :
    construct_property_rn (.str " 7 ") = .ok "properties/7" ∧
    ∃ d : List Char, d ≠ [] ∧ d.all Char.isDigit = true ∧
      "properties/7" = String.mk ("properties/".data ++ d) ∧
      "properties/7".data.all (fun c => !c.isWhitespace) = true :=
  ⟨rfl, construct_property_rn_canonical (.str " 7 ") "properties/7" rfl⟩

/-- C7 counterexample: run_report does not route property_id through the
normalizer; an already-qualified property_id yields a doubly-prefixed
property field instead of the normalizer's canonical output. -/
theorem run_report_property_counterexample :
    run_report_property "properties/12345" = "properties/properties/12345" ∧
    construct_property_rn (.str "properties/12345") = .ok "properties/12345" ∧
    run_report_property "properties/12345" ≠ "properties/12345" :=
  ⟨rfl, rfl, by decide⟩

/-- C7 amended: run_report interpolates property_id directly after the
canonical literal without invoking the normalizer; for a bare all-digit
property_id this coincides with the normalizer's canonical output and is
itself canonical, but not for already-qualified input. -/
theorem run_report_property_amended (s : String)
    (h1 : s.data ≠ []) (h2 : s.data.all Char.isDigit = true) :
    run_report_property s = "properties/" ++ s ∧
    construct_property_rn (.str s) = .ok (run_report_property s) ∧
    construct_property_rn (.str (run_report_property s)) =
      .ok (run_report_property s) := by
  refine ⟨rfl, ?_, ?_⟩
  · show normalizeChars (trimChars s.data) = _
    have htrim : trimChars s.data = s.data :=
      trimChars_eq_self
        (fun c hc => not_whitespace_of_isDigit (List.all_eq_true.mp h2 c hc))
    rw [htrim, normalizeChars_digits h1 h2, mk_append]
    rfl
  · show normalizeChars (trimChars (run_report_property s).data) = _
    have hdata : (run_report_property s).data = "properties/".data ++ s.data := by
      cases s with
      | mk l => rfl
    rw [hdata, trim_canonical h2, normalizeChars_qualified h1 h2, mk_append]
    rfl

/-- Witness for the amended C7 theorem at a bare digit id. -/
theorem run_report_property_amended_witness :
    "99".data ≠ [] ∧ "99".data.all Char.isDigit = true ∧
    (run_report_property "99" = "properties/" ++ "99" ∧
     construct_property_rn (.str "99") = .ok (run_report_property "99") ∧
     construct_property_rn (.str (run_report_property "99")) =
       .ok (run_report_property "99")) :=
  ⟨by decide, by decide, run_report_property_amended "99" (by decide) (by decide)⟩

/-- C8: get_dimensions raises its ValueError exactly for a missing
property_id; a value starting with the canonical literal is reduced to its
last slash-separated component before the metadata resource name is built,
so a multi-component input is not rejected but silently reduced, unlike the
normalizer's strict two-component rule. -/
theorem get_dimensions_name_spec :
    get_dimensions_name none = .error "Must supply a property ID" ∧
    (∀ s : String, startsWithChars "properties/".data s.data = true →
      get_dimensions_name (some s) =
        .ok (String.mk ("properties/".data ++ lastComponent (splitSlash s.data)
              ++ "/metadata".data))) ∧
    get_dimensions_name (some "properties/123/abc") = .ok "properties/abc/metadata" ∧
    (construct_property_rn (.str "properties/123/abc")).toOption = none := by
  refine ⟨rfl, ?_, rfl, rfl⟩
  intro s hs
  simp only [get_dimensions_name]
  rw [if_pos hs]

/-- Witness for the C8 theorem at a qualified input. -/
theorem get_dimensions_name_spec_witness :
    startsWithChars "properties/".data "properties/55".data = true ∧
    get_dimensions_name (some "properties/55") =
      .ok (String.mk ("properties/".data ++ lastComponent (splitSlash "properties/55".data)
            ++ "/metadata".data)) :=
  ⟨by decide, get_dimensions_name_spec.2.1 "properties/55" (by decide)⟩

/-- C9: get_metrics performs no validation of property_id: every input,
including null and non-numeric strings, succeeds and is interpolated
directly into the metadata resource name, in contrast to get_dimensions
which rejects a missing value and strips the canonical literal. -/
theorem get_metrics_name_no_validation :
    (∀ v : PropertyInput, get_metrics_name v =
      .ok ("properties/" ++ pyStr v ++ "/metadata")) ∧
    get_metrics_name .null = .ok "properties/None/metadata" ∧
    get_metrics_name (.str "abc") = .ok "properties/abc/metadata" ∧
    (get_dimensions_name none).isOk = false ∧
    get_dimensions_name (some "properties/123") = .ok "properties/123/metadata" :=
  ⟨fun _ => rfl, rfl, rfl, rfl, rfl⟩

/-- C10: run_report copies limit, offset, and currency_code into the
request only when truthy: each resulting field equals the argument when it
is truthy and stays unset otherwise, so an explicit zero limit or offset or
an empty currency code leaves the field unset exactly as if omitted. -/
theorem run_report_optional_fields_truthy :
    (∀ (l o : Option Int) (c : Option String),
      run_report_optional_fields l o c =
        ⟨if truthyInt l then l else none,
         if truthyInt o then o else none,
         if truthyStr c then c else none⟩) ∧
    run_report_optional_fields (some 0) (some 0) (some "") =
      run_report_optional_fields none none none ∧
    run_report_optional_fields (some 0) (some 0) (some "") = ⟨none, none, none⟩ ∧
    run_report_optional_fields (some 5) (some 7) (some "USD") =
      ⟨some 5, some 7, some "USD"⟩ := by
  refine ⟨?_, rfl, rfl, rfl⟩
  intro l o c
  unfold run_report_optional_fields
  split_ifs <;> rfl

example : construct_property_rn (.int 12345) = .ok "properties/12345" := rfl
example : construct_property_rn (.str "12345") = .ok "properties/12345" := rfl
example : construct_property_rn (.str " 12345  ") = .ok "properties/12345" := rfl
example : construct_property_rn (.str "properties/12345") = .ok "properties/12345" := rfl
example : (construct_property_rn .null).toOption = none := by decide
example : (construct_property_rn (.str "")).toOption = none := by decide
example : (construct_property_rn (.str "abc")).toOption = none := by decide
example : (construct_property_rn (.str "properties/")).toOption = none := by decide
example : (construct_property_rn (.str "properties/abc")).toOption = none := by decide
example : (construct_property_rn (.str "properties/123/abc")).toOption = none := by decide

end AnalyticsMcp
